import Mathlib

set_option maxRecDepth 100000

/-!
Verification of the blackjack round engine: the provably-fair deck
construction, scoring, hand resolution, payout, client-view projection and
the session actions, shallowly embedded from `src/lib/game-logic.ts` and
`src/app/api/game/actions.ts`.
-/

/-- The four suits, in the enumeration order of `game-logic.ts`. -/
inductive Suit where
  | hearts | diamonds | clubs | spades
deriving DecidableEq, Repr

/-- The thirteen ranks, in the enumeration order of `game-logic.ts`
(`"A","2",...,"10","J","Q","K"`). -/
inductive Rank where
  | A | two | three | four | five | six | seven | eight | nine | ten | J | Q | K
deriving DecidableEq, Repr

/-- A server-side card (`CardType`): suit, rank, and the transient `hidden`
flag (absent in TS is falsy, modelled as `false`). -/
structure Card where
  suit : Suit
  rank : Rank
  hidden : Bool := false
deriving DecidableEq, Repr

/-- The suit list of `createProvablyFairDeck`. -/
def suitsList : List Suit := [.hearts, .diamonds, .clubs, .spades]

/-- The rank list of `createProvablyFairDeck`. -/
def ranksList : List Rank :=
  [.A, .two, .three, .four, .five, .six, .seven, .eight, .nine, .ten, .J, .Q, .K]

/-- The standard ordered 52-card deck built by the nested suit/rank loops of
`createProvablyFairDeck` (suits outer, ranks inner). -/
def orderedDeck : List Card :=
  suitsList.flatMap fun s => ranksList.map fun r => { suit := s, rank := r }

/-- Modelled from the spec: `src/lib/provably-fair.ts` is not in the sources;
§4.2 specifies a keyed deterministic byte-stream generator over
`(serverSeed, clientSeed)`. This folds the seed characters into a number. -/
def seedNum (s : String) : Nat :=
  s.data.foldl (fun a c => (a * 131 + c.toNat) % 1000003) 0

/-- Modelled from the spec: the keyed deterministic byte stream of §4.2
(HMAC-style expansion of the seed pair with a counter), as a pure function
of the two seeds and the counter. -/
def byteStream (serverSeed clientSeed : String) (counter : Nat) : Nat :=
  (seedNum serverSeed * (counter + 7) + seedNum clientSeed * 31 + counter * counter) % 65536

/-- Swap the entries at positions `i` and `j` of a list (identity when either
index is out of range), used by the Fisher-Yates permutation of §4.2. -/
def fySwap (l : List Nat) (i j : Nat) : List Nat :=
  match l.get? i, l.get? j with
  | some a, some b => (l.set i b).set j a
  | _, _ => l

/-- Modelled from the spec: Fisher-Yates over the index range driven by the
deterministic byte stream, iterating the index `i` downward. -/
def fyAux (stream : Nat → Nat) : Nat → List Nat → List Nat
  | 0, l => l
  | i + 1, l => fyAux stream i (fySwap l (i + 1) (stream (i + 1) % (i + 2)))

/-- Modelled from the spec: `generateShuffledDeck` of `src/lib/provably-fair.ts`
(imported by `game-logic.ts` as `generateProvablyFairDeck`): the sequence of
52 shuffle indices derived deterministically from the two seeds via a
byte-stream-driven Fisher-Yates permutation of `0..51`. -/
def generateShuffledDeck (serverSeed clientSeed : String) : List Nat :=
  fyAux (byteStream serverSeed clientSeed) 51 (List.range 52)

/-- `createProvablyFairDeck` of `game-logic.ts`: build the ordered deck, get
the provably fair shuffle indices, and pick the cards in that order. -/
def createProvablyFairDeck (serverSeed clientSeed : String) : List Card :=
  let shuffleIndices := generateShuffledDeck serverSeed clientSeed
  shuffleIndices.map fun index => orderedDeck.getD index { suit := .hearts, rank := .A }

/-- The accumulation loop of `calculateScore`: walk the cards keeping the
running `(score, aces)` pair (A adds 11 and counts an ace, K/Q/J add 10,
numeric ranks add their parsed value). -/
def scoreAcc : List Card → Nat × Nat → Nat × Nat
  | [], acc => acc
  | card :: rest, (score, aces) =>
    match card.rank with
    | .A => scoreAcc rest (score + 11, aces + 1)
    | .K => scoreAcc rest (score + 10, aces)
    | .Q => scoreAcc rest (score + 10, aces)
    | .J => scoreAcc rest (score + 10, aces)
    | .two => scoreAcc rest (score + 2, aces)
    | .three => scoreAcc rest (score + 3, aces)
    | .four => scoreAcc rest (score + 4, aces)
    | .five => scoreAcc rest (score + 5, aces)
    | .six => scoreAcc rest (score + 6, aces)
    | .seven => scoreAcc rest (score + 7, aces)
    | .eight => scoreAcc rest (score + 8, aces)
    | .nine => scoreAcc rest (score + 9, aces)
    | .ten => scoreAcc rest (score + 10, aces)

/-- The ace-adjustment loop of `calculateScore`: while `score > 21` and some
ace is still counted as 11, subtract 10 and decrement the ace count. -/
def adjustAces (score : Nat) : Nat → Nat
  | 0 => score
  | aces + 1 => if 21 < score then adjustAces (score - 10) aces else score

/-- `calculateScore` of `game-logic.ts`. -/
def calculateScore (cards : List Card) : Nat :=
  let (score, aces) := scoreAcc cards (0, 0)
  adjustAces score aces

/-- Possible round outcomes (`GameResult` in `types.ts`). -/
inductive GameResult where
  | bust | dealerBust | blackjack | push | playerWin | dealerWin
deriving DecidableEq, Repr

/-- `determineGameResult` of `game-logic.ts`. -/
def determineGameResult (playerCards dealerCards : List Card) : GameResult :=
  let playerScore := calculateScore playerCards
  let dealerScore := calculateScore dealerCards
  if playerScore > 21 then .bust
  else if dealerScore > 21 then .dealerBust
  else if playerScore = 21 ∧ playerCards.length = 2 then
    if dealerScore = 21 ∧ dealerCards.length = 2 then .push else .blackjack
  else if playerScore > dealerScore then .playerWin
  else if dealerScore > playerScore then .dealerWin
  else .push

/-- `calculatePayout` of `game-logic.ts`; bets are TS numbers, modelled as
rationals so that `bet * 2.5` is exact. -/
def calculatePayout (bet : ℚ) (result : GameResult) : ℚ :=
  match result with
  | .playerWin => bet * 2
  | .dealerBust => bet * 2
  | .push => bet
  | .blackjack => bet * 2.5
  | _ => 0

/-- Placeholder card used to totalise TS's non-null assertions (`deck.pop()!`)
and out-of-range indexing; the spec (§7) makes deck underflow unreachable. -/
def defaultCard : Card := { suit := .hearts, rank := .A }

/-- Session lifecycle states (`gameState` in `types.ts`). -/
inductive GameState where
  | betting | playing | dealerTurn | gameOver
deriving DecidableEq, Repr

/-- `ProvablyFairData` of `types.ts`. -/
structure ProvablyFairData where
  gameId : String
  serverSeed : String
  hashedServerSeed : String
  clientSeed : String
  nonce : Nat
  completed : Bool
deriving DecidableEq, Repr

/-- `GameSession` of `types.ts`; TS numbers (`balance`, `bet`) are rationals. -/
structure GameSession where
  id : String
  deck : List Card
  dealerCards : List Card
  playerCards : List Card
  gameState : GameState
  balance : ℚ
  bet : ℚ
  gameResult : Option GameResult
  provablyFair : Option ProvablyFairData
deriving DecidableEq, Repr

/-- `ClientCardType` of `types.ts`: a projected card entry, whose `suit` and
`rank` may be absent (`none` models TS `undefined`). The random `id` field
(from the external `uuid` collaborator) is omitted. -/
structure ClientCard where
  suit : Option Suit := none
  rank : Option Rank := none
  hidden : Bool
  isNew : Bool
  isInitialDeal : Bool
deriving DecidableEq, Repr

/-- The `provablyFair` portion of the client state built by
`createClientGameState`: `serverSeed` is optional (withheld = `none`). -/
structure ClientProvablyFair where
  gameId : String
  clientSeed : String
  hashedServerSeed : String
  serverSeed : Option String
  nonce : Nat
  completed : Bool
deriving DecidableEq, Repr

/-- `ClientGameState` of `types.ts`. -/
structure ClientGameState where
  sessionId : String
  dealerCards : List ClientCard
  playerCards : List ClientCard
  gameState : GameState
  balance : ℚ
  bet : ℚ
  dealerScore : Nat
  playerScore : Nat
  gameResult : Option GameResult
  message : String
  provablyFair : Option ClientProvablyFair := none
deriving DecidableEq, Repr

/-- The indexed map of `convertToClientCards` (`cards.map((card, index) => ...)`),
with `total = cards.length` and `index` threaded explicitly. -/
def convertAux (markNewCard isInitialDeal hideDealer : Bool) (total : Nat) :
    Nat → List Card → List ClientCard
  | _, [] => []
  | index, card :: rest =>
    (if card.hidden then
      { hidden := true,
        isNew := markNewCard && decide (index = total - 1),
        isInitialDeal := isInitialDeal }
    else
      { suit := some card.suit, rank := some card.rank,
        hidden := hideDealer && decide (0 < index),
        isNew := markNewCard && decide (index = total - 1),
        isInitialDeal := isInitialDeal }) ::
      convertAux markNewCard isInitialDeal hideDealer total (index + 1) rest

/-- `convertToClientCards` of `game-logic.ts`: a hidden card becomes an opaque
placeholder; otherwise suit and rank are carried over and the entry's
`hidden` flag is `hideDealer && index > 0`. -/
def convertToClientCards (cards : List Card)
    (markNewCard isInitialDeal hideDealer : Bool) : List ClientCard :=
  convertAux markNewCard isInitialDeal hideDealer cards.length 0 cards

/-- `createClientGameState` of `actions.ts`: project a session to the client
view (seed withheld until `completed`, dealer score zeroed only under the
`hideDealer` flag, hidden cards un-hidden before the dealer score is taken). -/
def createClientGameState (session : GameSession)
    (markNewCard isInitialDeal hideDealer : Bool) : ClientGameState :=
  let provablyFairData := session.provablyFair.map fun pf =>
    { gameId := pf.gameId, clientSeed := pf.clientSeed,
      hashedServerSeed := pf.hashedServerSeed,
      serverSeed := if pf.completed then some pf.serverSeed else none,
      nonce := pf.nonce, completed := pf.completed : ClientProvablyFair }
  let dealerCards := convertToClientCards session.dealerCards markNewCard isInitialDeal hideDealer
  let playerCards := convertToClientCards session.playerCards markNewCard isInitialDeal false
  let dealerScore := if hideDealer then 0 else
    calculateScore (session.dealerCards.map fun card =>
      if card.hidden then { card with hidden := false } else card)
  let playerScore := calculateScore session.playerCards
  { sessionId := session.id, dealerCards := dealerCards, playerCards := playerCards,
    gameState := session.gameState, balance := session.balance, bet := session.bet,
    dealerScore := dealerScore, playerScore := playerScore,
    gameResult := session.gameResult, message := "", provablyFair := provablyFairData }

/-- The neutral default view returned by `playerHit`/`playerStand`/`newRound`
when no session is found ("Session expired"). -/
def expiredView : ClientGameState :=
  { sessionId := "", dealerCards := [], playerCards := [], gameState := .betting,
    balance := 1000, bet := 0, dealerScore := 0, playerScore := 0,
    gameResult := none, message := "Session expired. Please start a new game." }

/-- `placeBet` of `actions.ts`, for an existing session, as a pure function
from the loaded session to the persisted session and the returned view.
The non-provably-fair branch uses `createDeck()` (a `Math.random` shuffle);
that nondeterministic deck is supplied as the `randomDeck` oracle. -/
def placeBet (randomDeck : List Card) (session : GameSession) (bet : ℚ) :
    GameSession × ClientGameState :=
  if bet ≤ 0 ∨ bet > session.balance then
    (session, { createClientGameState session false false false with
                  message := "Invalid bet amount" })
  else
    let deck0 :=
      match session.provablyFair with
      | some pf => createProvablyFairDeck pf.serverSeed pf.clientSeed
      | none => randomDeck
    let c1 := deck0.getLastD defaultCard
    let d1 := deck0.dropLast
    let c2 := d1.getLastD defaultCard
    let d2 := d1.dropLast
    let c3 := d2.getLastD defaultCard
    let d3 := d2.dropLast
    let c4 := d3.getLastD defaultCard
    let d4 := d3.dropLast
    let session1 := { session with
      deck := d4, bet := bet, balance := session.balance - bet,
      gameState := .playing, gameResult := none,
      dealerCards := [{ c1 with hidden := false }, { c2 with hidden := true }],
      playerCards := [{ c3 with hidden := false }, { c4 with hidden := false }] }
    (session1, createClientGameState session1 false true false)

/-- The card a hit appends: the popped top of the deck (`deck.pop()!`) with
`hidden` explicitly set to `false`. -/
def hitCard (session : GameSession) : Card :=
  { session.deck.getLastD defaultCard with hidden := false }

/-- `playerHit` of `actions.ts`, for an existing session: pop a card to the
player's hand; on bust reveal the dealer's cards, set the result and end
the round; otherwise stay in `playing`. -/
def playerHit (session : GameSession) : GameSession × ClientGameState :=
  if session.gameState ≠ .playing then
    (session, { createClientGameState session false false false with
                  message := "Invalid game state for hit action" })
  else
    let deck := session.deck.dropLast
    let playerCards := session.playerCards ++ [hitCard session]
    let playerScore := calculateScore playerCards
    let session1 :=
      if playerScore > 21 then
        { session with
          deck := deck, playerCards := playerCards,
          dealerCards := session.dealerCards.map (fun card => { card with hidden := false }),
          gameResult := some .bust, gameState := .gameOver }
      else
        { session with deck := deck, playerCards := playerCards }
    (session1, createClientGameState session1 true false false)

/-- The dealer-draw loop of `playerStand` (`while dealerScore < 17`), popping
one card per iteration; the fuel is the deck length, so fuel exhaustion is
exactly deck underflow (unreachable per §7). -/
def dealerLoop : Nat → List Card → List Card → List Card × List Card
  | 0, hand, deck => (hand, deck)
  | fuel + 1, hand, deck =>
    if calculateScore hand < 17 then
      dealerLoop fuel (hand ++ [deck.getLastD defaultCard]) deck.dropLast
    else (hand, deck)

/-- The body of `playerStand` after its state guard: reveal the dealer's
cards, run the dealer-draw loop, resolve the hands, credit the payout
unless the outcome is `dealerWin` or `bust`, and complete the
provably-fair record. -/
def standProceed (session : GameSession) : GameSession × ClientGameState :=
  let dealerRevealed := session.dealerCards.map fun card => { card with hidden := false }
  let drawn := dealerLoop session.deck.length dealerRevealed session.deck
  let result := determineGameResult session.playerCards drawn.1
  let balance1 :=
    if result ≠ .dealerWin ∧ result ≠ .bust then
      session.balance + calculatePayout session.bet result
    else session.balance
  let session1 := { session with
    dealerCards := drawn.1, deck := drawn.2, gameResult := some result,
    gameState := .gameOver, balance := balance1,
    provablyFair := session.provablyFair.map (fun pf => { pf with completed := true }) }
  (session1, createClientGameState session1 false false false)

/-- `playerStand` of `actions.ts`, for an existing session: proceed when the
state is `playing`; otherwise self-heal to `playing` when both hands are
non-empty and no result is set, else return the message-bearing view. -/
def playerStand (session : GameSession) : GameSession × ClientGameState :=
  if session.gameState = .playing then standProceed session
  else if 0 < session.playerCards.length ∧ 0 < session.dealerCards.length ∧
      session.gameResult = none then
    standProceed { session with gameState := .playing }
  else
    (session, { createClientGameState session false false false with
                  message := "Invalid game state for stand action. Please start a new game." })

/-- Spec-side card value (§4.3): numeric ranks count face value, J/Q/K count
10, an Ace initially counts 11. -/
def cardValue : Rank → Nat
  | .A => 11
  | .two => 2
  | .three => 3
  | .four => 4
  | .five => 5
  | .six => 6
  | .seven => 7
  | .eight => 8
  | .nine => 9
  | .ten => 10
  | .J => 10
  | .Q => 10
  | .K => 10

/-- Spec-side sum of initial card values (§4.3). -/
def sumValues : List Card → Nat
  | [] => 0
  | card :: rest => cardValue card.rank + sumValues rest

/-- Spec-side count of Aces initially counted as 11 (§4.3). -/
def countAces : List Card → Nat
  | [] => 0
  | card :: rest => (if card.rank = .A then 1 else 0) + countAces rest

/-- The entry `convertToClientCards` produces for the card at a given index
(hidden cards become opaque placeholders; visible cards keep suit and rank
and get `hidden := hideDealer && index > 0`). -/
def projEntry (card : Card) (markNewCard isInitialDeal hideDealer : Bool)
    (total index : Nat) : ClientCard :=
  if card.hidden then
    { hidden := true, isNew := markNewCard && decide (index = total - 1),
      isInitialDeal := isInitialDeal }
  else
    { suit := some card.suit, rank := some card.rank,
      hidden := hideDealer && decide (0 < index),
      isNew := markNewCard && decide (index = total - 1),
      isInitialDeal := isInitialDeal }

/-- Fallback entry for out-of-range `getD` lookups in statements. -/
def cDefault : ClientCard := { hidden := true, isNew := false, isInitialDeal := false }

/-- The uncompleted provably-fair record shared by the concrete sessions. -/
def wpfRecord : ProvablyFairData :=
  { gameId := "g", serverSeed := "srv", hashedServerSeed := "hash",
    clientSeed := "cli", nonce := 0, completed := false }

/-- A two-card dealer hand, both visible, used to exhibit the `hideDealer`
rank/suit leak of `convertToClientCards`. -/
def leakCards : List Card :=
  [{ suit := .hearts, rank := .A }, { suit := .spades, rank := .K }]

/-- A mid-round session whose dealer hole card is still hidden (concealment
active) while the projector is invoked, as the actions do, with
`hideDealer = false`. -/
def leakSession : GameSession :=
  { id := "s", deck := [], dealerCards := [{ suit := .spades, rank := .K },
      { suit := .hearts, rank := .A, hidden := true }],
    playerCards := [{ suit := .clubs, rank := .ten }, { suit := .diamonds, rank := .nine }],
    gameState := .playing, balance := 950, bet := 50, gameResult := none,
    provablyFair := some wpfRecord }

/-- A `playing` session about to stand: dealer shows 20, deck holds 17 cards. -/
def standSession : GameSession :=
  { id := "s", deck := List.replicate 17 { suit := .clubs, rank := .five },
    dealerCards := [{ suit := .spades, rank := .K },
      { suit := .hearts, rank := .Q, hidden := true }],
    playerCards := [{ suit := .clubs, rank := .ten }, { suit := .diamonds, rank := .nine }],
    gameState := .playing, balance := 950, bet := 50, gameResult := none,
    provablyFair := some wpfRecord }

/-- A `playing` session whose next hit busts (player shows 20, next card K). -/
def bustSession : GameSession :=
  { id := "s", deck := [{ suit := .diamonds, rank := .K }],
    dealerCards := [{ suit := .spades, rank := .K },
      { suit := .hearts, rank := .Q, hidden := true }],
    playerCards := [{ suit := .clubs, rank := .ten }, { suit := .diamonds, rank := .Q }],
    gameState := .playing, balance := 950, bet := 50, gameResult := none,
    provablyFair := some wpfRecord }

/-- A `betting` session with balance 100, for the invalid-bet witness. -/
def bettingSession : GameSession :=
  { id := "s", deck := [], dealerCards := [], playerCards := [],
    gameState := .betting, balance := 100, bet := 0, gameResult := none,
    provablyFair := some wpfRecord }

theorem fySwap_length (l : List Nat) (i j : Nat) : (fySwap l i j).length = l.length := by
  unfold fySwap
  cases h1 : l.get? i <;> cases h2 : l.get? j <;> simp

theorem fyAux_length (stream : Nat → Nat) : ∀ (n : Nat) (l : List Nat),
    (fyAux stream n l).length = l.length := by
  intro n
  induction n with
  | zero => intro l; rfl
  | succ i ih => intro l; rw [fyAux, ih, fySwap_length]

theorem scoreAcc_eq (cards : List Card) :
    ∀ s a, scoreAcc cards (s, a) = (s + sumValues cards, a + countAces cards) := by
  induction cards with
  | nil => intro s a; simp [scoreAcc, sumValues, countAces]
  | cons c rest ih =>
    intro s a
    cases hc : c.rank <;>
      simp [scoreAcc, hc, sumValues, countAces, cardValue, ih] <;>
      omega

theorem calculateScore_eq (cards : List Card) :
    calculateScore cards = adjustAces (sumValues cards) (countAces cards) := by
  have hx := scoreAcc_eq cards 0 0
  unfold calculateScore
  rw [hx]
  simp

theorem countAces_le (cards : List Card) : countAces cards ≤ cards.length := by
  induction cards with
  | nil => simp [countAces]
  | cons c rest ih =>
    by_cases h : c.rank = .A <;> simp [countAces, h] <;> omega

theorem sumValues_ge (cards : List Card) :
    2 * cards.length + 9 * countAces cards ≤ sumValues cards := by
  induction cards with
  | nil => simp [sumValues, countAces]
  | cons c rest ih =>
    by_cases h : c.rank = .A
    · simp [sumValues, countAces, h, cardValue]; omega
    · have hv : 2 ≤ cardValue c.rank := by
        cases c.rank <;> first | exact absurd rfl h | simp [cardValue]
      simp [sumValues, countAces, h]; omega

theorem adjustAces_ge (aces : Nat) : ∀ score, score ≤ adjustAces score aces + 10 * aces := by
  induction aces with
  | zero => intro score; simp [adjustAces]
  | succ a ih =>
    intro score
    rw [adjustAces]
    split
    · have := ih (score - 10); omega
    · omega

theorem calculateScore_length_le (cards : List Card) :
    cards.length ≤ calculateScore cards := by
  have h1 := sumValues_ge cards
  have h2 := countAces_le cards
  have h3 := adjustAces_ge (countAces cards) (sumValues cards)
  rw [calculateScore_eq]
  omega

theorem dealerLoop_score (fuel : Nat) :
    ∀ hand deck, 17 ≤ hand.length + fuel →
      17 ≤ calculateScore (dealerLoop fuel hand deck).1 := by
  induction fuel with
  | zero =>
    intro hand deck h
    have := calculateScore_length_le hand
    rw [dealerLoop]
    show 17 ≤ calculateScore hand
    omega
  | succ f ih =>
    intro hand deck h
    by_cases hs : calculateScore hand < 17
    · rw [dealerLoop, if_pos hs]
      apply ih
      simp only [List.length_append, List.length_cons, List.length_nil]
      omega
    · rw [dealerLoop, if_neg hs]
      show 17 ≤ calculateScore hand
      omega

theorem dealerLoop_drawn (fuel : Nat) :
    ∀ hand deck, ∃ drawn : List Card,
      (dealerLoop fuel hand deck).1 = hand ++ drawn ∧
      ∀ k, k < drawn.length → calculateScore (hand ++ drawn.take k) < 17 := by
  induction fuel with
  | zero =>
    intro hand deck
    exact ⟨[], by rw [dealerLoop]; simp, by simp⟩
  | succ f ih =>
    intro hand deck
    by_cases hs : calculateScore hand < 17
    · obtain ⟨drawn, h1, h2⟩ := ih (hand ++ [deck.getLastD defaultCard]) deck.dropLast
      refine ⟨deck.getLastD defaultCard :: drawn, ?_, ?_⟩
      · rw [dealerLoop, if_pos hs, h1]
        simp
      · intro k hk
        cases k with
        | zero => simpa using hs
        | succ j =>
          have hj : j < drawn.length := by simpa using hk
          have hx := h2 j hj
          have ht : (deck.getLastD defaultCard :: drawn).take (j + 1) =
              deck.getLastD defaultCard :: drawn.take j := rfl
          rw [ht, List.append_cons hand]
          exact hx
    · exact ⟨[], by rw [dealerLoop, if_neg hs]; simp, by simp⟩

theorem convertAux_get? (m i hd : Bool) (total : Nat) :
    ∀ (cards : List Card) (idx k : Nat) (hk : k < cards.length),
      (convertAux m i hd total idx cards).get? k =
        some (projEntry (cards.get ⟨k, hk⟩) m i hd total (idx + k)) := by
  intro cards
  induction cards with
  | nil => intro idx k hk; simp at hk
  | cons c rest ih =>
    intro idx k hk
    cases k with
    | zero => simp [convertAux, projEntry]
    | succ j =>
      have hj : j < rest.length := by simpa using hk
      have hx := ih (idx + 1) j hj
      rw [convertAux]
      simpa [Nat.add_assoc, Nat.add_comm 1 j] using hx

theorem convertToClientCards_getD (cards : List Card) (m i hd : Bool)
    (k : Nat) (hk : k < cards.length) :
    (convertToClientCards cards m i hd).getD k cDefault =
      projEntry (cards.get ⟨k, hk⟩) m i hd cards.length k := by
  have hx := convertAux_get? m i hd cards.length cards 0 k hk
  rw [convertToClientCards]
  rw [List.getD_eq_getElem?_getD, ← List.get?_eq_getElem?, hx]
  simp

theorem clientState_serverSeed (session : GameSession) (m i hd : Bool) :
    ((createClientGameState session m i hd).provablyFair).map (fun pf => pf.serverSeed) =
      session.provablyFair.map (fun pf => if pf.completed then some pf.serverSeed else none) := by
  cases h : session.provablyFair <;> simp [createClientGameState, h]

/-- C1: for every pair of seed strings, any two calls to
`createProvablyFairDeck` return the identical sequence of 52 cards: the
deck order is a deterministic pure function of the two seeds alone, and it
always has exactly 52 entries. -/
theorem createProvablyFairDeck_deterministic :
    ∀ serverSeed clientSeed : String,
      createProvablyFairDeck serverSeed clientSeed =
        createProvablyFairDeck serverSeed clientSeed ∧
      (createProvablyFairDeck serverSeed clientSeed).length = 52 := by
  intro s c
  refine ⟨rfl, ?_⟩
  simp [createProvablyFairDeck, generateShuffledDeck, fyAux_length]

/-- C2: `calculateScore` sums card values (numeric ranks at face value,
J/Q/K as 10, each Ace initially 11) and then repeatedly subtracts 10 while
the total exceeds 21 and some Ace is still counted as 11; in particular
A+K = 21, A+A = 12 and K+Q+2 = 22. -/
theorem calculateScore_matches_spec :
    (∀ cards : List Card,
      calculateScore cards = adjustAces (sumValues cards) (countAces cards)) ∧
    calculateScore [{ suit := .spades, rank := .A }, { suit := .hearts, rank := .K }] = 21 ∧
    calculateScore [{ suit := .spades, rank := .A }, { suit := .hearts, rank := .A }] = 12 ∧
    calculateScore [{ suit := .spades, rank := .K }, { suit := .hearts, rank := .Q },
      { suit := .clubs, rank := .two }] = 22 :=
  ⟨calculateScore_eq, by decide, by decide, by decide⟩

/-- C3: `determineGameResult` classifies by the exact precedence player bust,
dealer bust, natural player blackjack (push when the dealer also has a
2-card 21), then higher total wins with equal totals a push; with the
three sample resolutions. -/
theorem determineGameResult_precedence :
    (∀ playerCards dealerCards : List Card,
      determineGameResult playerCards dealerCards =
        (if calculateScore playerCards > 21 then .bust
        else if calculateScore dealerCards > 21 then .dealerBust
        else if calculateScore playerCards = 21 ∧ playerCards.length = 2 then
          (if calculateScore dealerCards = 21 ∧ dealerCards.length = 2 then .push
          else .blackjack)
        else if calculateScore playerCards > calculateScore dealerCards then .playerWin
        else if calculateScore dealerCards > calculateScore playerCards then .dealerWin
        else .push)) ∧
    determineGameResult
      [{ suit := .spades, rank := .A }, { suit := .hearts, rank := .K }]
      [{ suit := .clubs, rank := .K }, { suit := .diamonds, rank := .Q }] = .blackjack ∧
    determineGameResult
      [{ suit := .spades, rank := .A }, { suit := .hearts, rank := .K }]
      [{ suit := .clubs, rank := .A }, { suit := .diamonds, rank := .Q }] = .push ∧
    determineGameResult
      [{ suit := .spades, rank := .ten }, { suit := .hearts, rank := .nine }]
      [{ suit := .clubs, rank := .ten }, { suit := .diamonds, rank := .eight }] = .playerWin :=
  ⟨fun _ _ => rfl, by decide, by decide, by decide⟩

/-- C4: `calculatePayout` pays 2×bet on `playerWin` and `dealerBust`, 1×bet
on `push`, 2.5×bet on `blackjack`, and 0 on `bust` and `dealerWin`; in
particular 250, 100 and 0 on a bet of 100. -/
theorem calculatePayout_table :
    (∀ bet : ℚ,
      calculatePayout bet .playerWin = 2 * bet ∧
      calculatePayout bet .dealerBust = 2 * bet ∧
      calculatePayout bet .push = 1 * bet ∧
      calculatePayout bet .blackjack = 2.5 * bet ∧
      calculatePayout bet .bust = 0 ∧
      calculatePayout bet .dealerWin = 0) ∧
    calculatePayout 100 .blackjack = 250 ∧
    calculatePayout 100 .push = 100 ∧
    calculatePayout 100 .dealerWin = 0 := by
  refine ⟨fun bet => ?_, by norm_num [calculatePayout], rfl, rfl⟩
  refine ⟨?_, ?_, ?_, ?_, rfl, rfl⟩ <;> simp [calculatePayout] <;> ring

/-- C6: every view built by the projector carries the raw `serverSeed` only
when the provably-fair record has `completed = true`, carries `none` in its
place whenever `completed = false`, and the session-expired default view
carries no provably-fair record at all. -/
theorem serverSeed_withheld_until_completed :
    (∀ (session : GameSession) (m i hd : Bool),
      ((createClientGameState session m i hd).provablyFair).map (fun pf => pf.serverSeed) =
        session.provablyFair.map (fun pf => if pf.completed then some pf.serverSeed else none)) ∧
    expiredView.provablyFair = none :=
  ⟨clientState_serverSeed, rfl⟩

/-- C5 counterexample: with the `hideDealer` flag set, the second dealer card
is not an opaque placeholder — its rank is still present in the projected
entry — and a session whose dealer hole card is concealed only by its
per-card `hidden` flag (as the actions invoke the projector, with
`hideDealer = false`) reports the full dealer score 21 rather than 0. -/
theorem convertToClientCards_leaks :
    ((convertToClientCards leakCards false false true).getD 1 cDefault).rank = some Rank.K ∧
    (createClientGameState leakSession false false false).dealerScore = 21 := by
  constructor <;> decide

/-- C5 (amended): a card whose `hidden` flag is set is projected as an opaque
placeholder with no rank and no suit; when `hideDealer` is set, a visible
card after the first is marked `hidden := true` in the projection but its
rank and suit remain present in the entry; and the reported dealer score
is 0 exactly when the `hideDealer` flag is set — otherwise it is the score
of the dealer hand with all `hidden` flags cleared. -/
theorem convertToClientCards_projection :
    (∀ (cards : List Card) (m i hd : Bool) (k : Nat) (hk : k < cards.length),
      ((cards.get ⟨k, hk⟩).hidden = true →
        (convertToClientCards cards m i hd).getD k cDefault =
          { hidden := true, isNew := m && decide (k = cards.length - 1),
            isInitialDeal := i }) ∧
      ((cards.get ⟨k, hk⟩).hidden = false →
        (convertToClientCards cards m i hd).getD k cDefault =
          { suit := some (cards.get ⟨k, hk⟩).suit,
            rank := some (cards.get ⟨k, hk⟩).rank,
            hidden := hd && decide (0 < k),
            isNew := m && decide (k = cards.length - 1),
            isInitialDeal := i })) ∧
    (∀ (session : GameSession) (m i : Bool),
      (createClientGameState session m i true).dealerScore = 0) ∧
    (∀ (session : GameSession) (m i : Bool),
      (createClientGameState session m i false).dealerScore =
        calculateScore (session.dealerCards.map
          (fun card => if card.hidden then { card with hidden := false } else card))) := by
  refine ⟨?_, fun _ _ _ => rfl, fun _ _ _ => rfl⟩
  intro cards m i hd k hk
  rw [convertToClientCards_getD cards m i hd k hk]
  constructor <;> intro h <;> simp [List.get_eq_getElem] at h <;> simp [projEntry, h]

/-- Witness for the amended C5 at a concrete input: the visible second card
of `leakCards` under `hideDealer = true`. -/
theorem convertToClientCards_projection_witness :
    1 < leakCards.length ∧
    (convertToClientCards leakCards false false true).getD 1 cDefault =
      { suit := some Suit.spades, rank := some Rank.K,
        hidden := true && decide (0 < 1),
        isNew := false && decide (1 = leakCards.length - 1),
        isInitialDeal := false } := by
  refine ⟨by decide, ?_⟩
  exact (convertToClientCards_projection.1 leakCards false false true 1 (by decide)).2 (by decide)

/-- C8: a hit in the `playing` state appends exactly one (visible) card to
the player's hand; if the resulting score exceeds 21 the round ends in
`gameOver` with result `bust`, all dealer cards revealed with no dealer
draw, and the balance unchanged; otherwise the state stays `playing`. -/
theorem playerHit_transition (session : GameSession)
    (hstate : session.gameState = .playing) :
    (playerHit session).1.playerCards =
      session.playerCards ++ [hitCard session] ∧
    (21 < calculateScore (session.playerCards ++
        [hitCard session]) →
      (playerHit session).1.gameState = .gameOver ∧
      (playerHit session).1.gameResult = some .bust ∧
      (playerHit session).1.dealerCards =
        session.dealerCards.map (fun card => { card with hidden := false }) ∧
      (playerHit session).1.dealerCards.length = session.dealerCards.length ∧
      (playerHit session).1.balance = session.balance) ∧
    (¬ 21 < calculateScore (session.playerCards ++
        [hitCard session]) →
      (playerHit session).1.gameState = .playing ∧
      (playerHit session).1.balance = session.balance) := by
  have hni : ¬ session.gameState ≠ .playing := by simp [hstate]
  by_cases hs : 21 < calculateScore (session.playerCards ++
      [hitCard session])
  · refine ⟨?_, fun _ => ?_, fun hc => absurd hs hc⟩ <;>
      simp [playerHit, hni, hs]
  · refine ⟨?_, fun hc => absurd hc hs, fun _ => ?_⟩ <;>
      simp [playerHit, hni, hs, hstate]

/-- Witness for C8: the concrete busting hit from `bustSession`. -/
theorem playerHit_transition_witness :
    bustSession.gameState = GameState.playing ∧
    (playerHit bustSession).1.playerCards =
      bustSession.playerCards ++ [hitCard bustSession] ∧
    (playerHit bustSession).1.gameState = GameState.gameOver ∧
    (playerHit bustSession).1.gameResult = some GameResult.bust := by
  have h := playerHit_transition bustSession rfl
  exact ⟨rfl, h.1, (h.2.1 (by decide)).1, (h.2.1 (by decide)).2.1⟩

/-- C10: a hit that busts leaves the session's provably-fair record, balance
and bet untouched; in particular when the record was uncompleted the view
returned by the busting hit still withholds the server seed. -/
theorem playerHit_bust_frame (session : GameSession)
    (hstate : session.gameState = .playing)
    (hbust : 21 < calculateScore (session.playerCards ++
      [hitCard session])) :
    (playerHit session).1.provablyFair = session.provablyFair ∧
    (playerHit session).1.balance = session.balance ∧
    (playerHit session).1.bet = session.bet ∧
    (∀ pf, session.provablyFair = some pf → pf.completed = false →
      ((playerHit session).2.provablyFair).map (fun cpf => cpf.serverSeed) = some none) := by
  have hni : ¬ session.gameState ≠ .playing := by simp [hstate]
  have hpf : (playerHit session).1.provablyFair = session.provablyFair := by
    simp [playerHit, hni, hbust]
  refine ⟨hpf, by simp [playerHit, hni, hbust], by simp [playerHit, hni, hbust], ?_⟩
  intro pf hp hc
  have hsnd : (playerHit session).2 =
      createClientGameState (playerHit session).1 true false false := by
    simp [playerHit, hni, hbust]
  rw [hsnd, clientState_serverSeed, hpf, hp]
  simp [hc]

/-- Witness for C10: the busting hit from `bustSession`, whose record is
uncompleted, keeps balance and bet and withholds the seed in the view. -/
theorem playerHit_bust_frame_witness :
    bustSession.gameState = GameState.playing ∧
    (playerHit bustSession).1.provablyFair = bustSession.provablyFair ∧
    (playerHit bustSession).1.balance = bustSession.balance ∧
    (playerHit bustSession).1.bet = bustSession.bet ∧
    ((playerHit bustSession).2.provablyFair).map (fun cpf => cpf.serverSeed) = some none := by
  have h := playerHit_bust_frame bustSession rfl (by decide)
  exact ⟨rfl, h.1, h.2.1, h.2.2.1, h.2.2.2 wpfRecord rfl rfl⟩

/-- C9: an invalid bet (non-positive, or exceeding the balance) on an
existing session returns the "Invalid bet amount" view of the unchanged
session and performs no mutation at all. -/
theorem placeBet_invalid_is_noop (randomDeck : List Card) (session : GameSession) (bet : ℚ)
    (h : bet ≤ 0 ∨ bet > session.balance) :
    (placeBet randomDeck session bet).1 = session ∧
    (placeBet randomDeck session bet).2 =
      { createClientGameState session false false false with
          message := "Invalid bet amount" } := by
  rw [placeBet, if_pos h]
  exact ⟨rfl, rfl⟩

/-- Witness for C9: betting 200 against a balance of 100 mutates nothing. -/
theorem placeBet_invalid_witness :
    ((200 : ℚ) ≤ 0 ∨ (200 : ℚ) > bettingSession.balance) ∧
    (placeBet [] bettingSession 200).1 = bettingSession ∧
    (placeBet [] bettingSession 200).2 =
      { createClientGameState bettingSession false false false with
          message := "Invalid bet amount" } := by
  have h : (200 : ℚ) ≤ 0 ∨ (200 : ℚ) > bettingSession.balance := Or.inr (by norm_num [bettingSession])
  have hx := placeBet_invalid_is_noop [] bettingSession 200 h
  exact ⟨h, hx.1, hx.2⟩

/-- C7: standing from `playing` (with at least 17 cards across dealer hand
and deck, as any real deal guarantees) reveals the dealer's cards, has the
dealer draw one card at a time only while its score is below 17, leaves a
final dealer hand scoring at least 17, computes the result from the final
hands, credits the payout unless the outcome is `dealerWin` or `bust`, and
ends in `gameOver`. -/
theorem playerStand_dealer_plays (session : GameSession)
    (hstate : session.gameState = .playing)
    (hdeck : 17 ≤ session.dealerCards.length + session.deck.length) :
    ∃ drawn : List Card,
      (playerStand session).1.dealerCards =
        session.dealerCards.map (fun card => { card with hidden := false }) ++ drawn ∧
      (∀ k, k < drawn.length →
        calculateScore (session.dealerCards.map (fun card => { card with hidden := false })
          ++ drawn.take k) < 17) ∧
      17 ≤ calculateScore (playerStand session).1.dealerCards ∧
      (playerStand session).1.gameResult =
        some (determineGameResult session.playerCards (playerStand session).1.dealerCards) ∧
      (playerStand session).1.gameState = .gameOver ∧
      (playerStand session).1.balance =
        (if determineGameResult session.playerCards (playerStand session).1.dealerCards
              ≠ .dealerWin ∧
            determineGameResult session.playerCards (playerStand session).1.dealerCards
              ≠ .bust then
          session.balance + calculatePayout session.bet
            (determineGameResult session.playerCards (playerStand session).1.dealerCards)
        else session.balance) := by
  have hps : playerStand session = standProceed session := by
    rw [playerStand, if_pos hstate]
  obtain ⟨drawn, h1, h2⟩ := dealerLoop_drawn session.deck.length
    (session.dealerCards.map (fun card => { card with hidden := false })) session.deck
  have hge : 17 ≤ calculateScore (dealerLoop session.deck.length
      (session.dealerCards.map (fun card => { card with hidden := false }))
      session.deck).1 := by
    apply dealerLoop_score
    rw [List.length_map]
    exact hdeck
  have hfst : (standProceed session).1.dealerCards =
      (dealerLoop session.deck.length
        (session.dealerCards.map (fun card => { card with hidden := false }))
        session.deck).1 := rfl
  refine ⟨drawn, ?_, h2, ?_, ?_, ?_, ?_⟩
  · rw [hps, hfst, h1]
  · rw [hps, hfst]
    exact hge
  · rw [hps, hfst]
    rfl
  · rw [hps]
    rfl
  · rw [hps, hfst]
    rfl

/-- Witness for C7: standing from `standSession` (dealer shows 20, 17 cards
left in the deck). -/
theorem playerStand_dealer_plays_witness :
    standSession.gameState = GameState.playing ∧
    17 ≤ standSession.dealerCards.length + standSession.deck.length ∧
    (∃ drawn : List Card,
      (playerStand standSession).1.dealerCards =
        standSession.dealerCards.map (fun card => { card with hidden := false }) ++ drawn ∧
      (∀ k, k < drawn.length →
        calculateScore (standSession.dealerCards.map (fun card => { card with hidden := false })
          ++ drawn.take k) < 17) ∧
      17 ≤ calculateScore (playerStand standSession).1.dealerCards ∧
      (playerStand standSession).1.gameResult =
        some (determineGameResult standSession.playerCards
          (playerStand standSession).1.dealerCards) ∧
      (playerStand standSession).1.gameState = .gameOver ∧
      (playerStand standSession).1.balance =
        (if determineGameResult standSession.playerCards
              (playerStand standSession).1.dealerCards ≠ .dealerWin ∧
            determineGameResult standSession.playerCards
              (playerStand standSession).1.dealerCards ≠ .bust then
          standSession.balance + calculatePayout standSession.bet
            (determineGameResult standSession.playerCards
              (playerStand standSession).1.dealerCards)
        else standSession.balance)) :=
  ⟨rfl, by decide, playerStand_dealer_plays standSession rfl (by decide)⟩
